import Mathlib

/-!
Verification development for the `StructLookupOptionalFunc` node of the mgmt
language runtime (`lang/funcs/struct_lookup_optional_func.go`).

The Go source is embedded shallowly:
* the external type/value library (`lang/types`) is modelled from the spec
  (tagged-variant types and values with structural comparison `Cmp`);
* `ArgGen`, `Build`, `Validate`, the `Unify` generator's type-learning
  closures (`validateArg0`, `validateArg2OrOut`) and the `Stream` loop are
  translated from the source file.
-/

namespace Mgmt

/-- Modelled from the spec: the kind tag of a type descriptor
(the concrete `types.Kind` enumeration lives outside the sources). -/
inductive Kind where
  | int
  | str
  | struct
  | func
deriving DecidableEq

/-- Modelled from the spec: tagged-variant type descriptors — primitives,
ordered-struct (ordered field-name to type map, fields unique), and
function signatures (`lang/types` is external to the sources). -/
inductive MType where
  | int
  | str
  | structT (fields : List (String × MType))
  | funcT (args : List (String × MType)) (out : MType)

mutual

/-- Decidable structural equality of types. -/
def MType.decEq : (a b : MType) → Decidable (a = b)
  | .int, .int => .isTrue rfl
  | .str, .str => .isTrue rfl
  | .structT fs, .structT gs =>
    match decEqTFields fs gs with
    | .isTrue h => .isTrue (by rw [h])
    | .isFalse h => .isFalse (by intro hh; injection hh with h'; exact h h')
  | .funcT as o, .funcT bs p =>
    match decEqTFields as bs, MType.decEq o p with
    | .isTrue h1, .isTrue h2 => .isTrue (by rw [h1, h2])
    | .isFalse h1, _ => .isFalse (by intro hh; injection hh with h1' h2'; exact h1 h1')
    | _, .isFalse h2 => .isFalse (by intro hh; injection hh with h1' h2'; exact h2 h2')
  | .int, .str => .isFalse (by intro h; exact MType.noConfusion h)
  | .int, .structT _ => .isFalse (by intro h; exact MType.noConfusion h)
  | .int, .funcT _ _ => .isFalse (by intro h; exact MType.noConfusion h)
  | .str, .int => .isFalse (by intro h; exact MType.noConfusion h)
  | .str, .structT _ => .isFalse (by intro h; exact MType.noConfusion h)
  | .str, .funcT _ _ => .isFalse (by intro h; exact MType.noConfusion h)
  | .structT _, .int => .isFalse (by intro h; exact MType.noConfusion h)
  | .structT _, .str => .isFalse (by intro h; exact MType.noConfusion h)
  | .structT _, .funcT _ _ => .isFalse (by intro h; exact MType.noConfusion h)
  | .funcT _ _, .int => .isFalse (by intro h; exact MType.noConfusion h)
  | .funcT _ _, .str => .isFalse (by intro h; exact MType.noConfusion h)
  | .funcT _ _, .structT _ => .isFalse (by intro h; exact MType.noConfusion h)

/-- Decidable equality of ordered field lists. -/
def decEqTFields : (fs gs : List (String × MType)) → Decidable (fs = gs)
  | [], [] => .isTrue rfl
  | [], _ :: _ => .isFalse (by intro h; exact List.noConfusion h)
  | _ :: _, [] => .isFalse (by intro h; exact List.noConfusion h)
  | (k, v) :: r, (k', v') :: r' =>
    match decEq k k', MType.decEq v v', decEqTFields r r' with
    | .isTrue h1, .isTrue h2, .isTrue h3 => .isTrue (by rw [h1, h2, h3])
    | .isFalse h1, _, _ => .isFalse (by
        intro hh
        injection hh with hp hr
        injection hp with hk hv
        exact h1 hk)
    | _, .isFalse h2, _ => .isFalse (by
        intro hh
        injection hh with hp hr
        injection hp with hk hv
        exact h2 hv)
    | _, _, .isFalse h3 => .isFalse (by
        intro hh
        injection hh with hp hr
        exact h3 hr)

end

instance : DecidableEq MType := MType.decEq

/-- The kind tag of a type. -/
def MType.kind : MType → Kind
  | .int => .int
  | .str => .str
  | .structT _ => .struct
  | .funcT _ _ => .func

/-- The ordered fields of a struct type (empty for non-struct kinds). -/
def MType.structFields : MType → List (String × MType)
  | .structT fs => fs
  | _ => []

/-- Modelled from the spec: `Cmp` between two types succeeds iff they are
structurally identical (recursively), else reports a type-mismatch error. -/
def MType.Cmp (a b : MType) : Except String Unit :=
  if a = b then .ok () else .error "type mismatch"

/-- Modelled from the spec: runtime values tagged by their type, supporting
structural equality, struct member lookup and string extraction. -/
inductive MValue where
  | intV (i : Int)
  | strV (s : String)
  | structV (fields : List (String × MValue))

mutual

/-- Decidable structural equality of values. -/
def MValue.decEq : (a b : MValue) → Decidable (a = b)
  | .intV i, .intV j =>
    match decEq i j with
    | .isTrue h => .isTrue (by rw [h])
    | .isFalse h => .isFalse (by intro hh; injection hh with h'; exact h h')
  | .strV s, .strV t =>
    match decEq s t with
    | .isTrue h => .isTrue (by rw [h])
    | .isFalse h => .isFalse (by intro hh; injection hh with h'; exact h h')
  | .structV fs, .structV gs =>
    match decEqVFields fs gs with
    | .isTrue h => .isTrue (by rw [h])
    | .isFalse h => .isFalse (by intro hh; injection hh with h'; exact h h')
  | .intV _, .strV _ => .isFalse (by intro h; exact MValue.noConfusion h)
  | .intV _, .structV _ => .isFalse (by intro h; exact MValue.noConfusion h)
  | .strV _, .intV _ => .isFalse (by intro h; exact MValue.noConfusion h)
  | .strV _, .structV _ => .isFalse (by intro h; exact MValue.noConfusion h)
  | .structV _, .intV _ => .isFalse (by intro h; exact MValue.noConfusion h)
  | .structV _, .strV _ => .isFalse (by intro h; exact MValue.noConfusion h)

/-- Decidable equality of ordered value-field lists. -/
def decEqVFields : (fs gs : List (String × MValue)) → Decidable (fs = gs)
  | [], [] => .isTrue rfl
  | [], _ :: _ => .isFalse (by intro h; exact List.noConfusion h)
  | _ :: _, [] => .isFalse (by intro h; exact List.noConfusion h)
  | (k, v) :: r, (k', v') :: r' =>
    match decEq k k', MValue.decEq v v', decEqVFields r r' with
    | .isTrue h1, .isTrue h2, .isTrue h3 => .isTrue (by rw [h1, h2, h3])
    | .isFalse h1, _, _ => .isFalse (by
        intro hh
        injection hh with hp hr
        injection hp with hk hv
        exact h1 hk)
    | _, .isFalse h2, _ => .isFalse (by
        intro hh
        injection hh with hp hr
        injection hp with hk hv
        exact h2 hv)
    | _, _, .isFalse h3 => .isFalse (by
        intro hh
        injection hh with hp hr
        exact h3 hr)

end

instance : DecidableEq MValue := MValue.decEq

/-- Modelled from the spec: structural equality comparison between values. -/
def MValue.Cmp (a b : MValue) : Except String Unit :=
  if a = b then .ok () else .error "value mismatch"

/-- Lookup of a key in an ordered association list (the model of both the
Go map access and `StructValue.Lookup`). -/
def VLookup (k : String) : List (String × α) → Option α
  | [] => none
  | (k', v) :: rest => if k' = k then some v else VLookup k rest

/-- The registered name of this function. -/
def StructLookupOptionalFuncName : String := "_struct_lookup_optional"

/-- First argument name. -/
def structLookupOptionalArgNameStruct : String := "struct"

/-- Second argument name. -/
def structLookupOptionalArgNameField : String := "field"

/-- Third argument name. -/
def structLookupOptionalArgNameOptional : String := "optional"

/-- The fixed argument-name sequence of `ArgGen`. -/
def argGenSeq : List String :=
  [structLookupOptionalArgNameStruct, structLookupOptionalArgNameField,
   structLookupOptionalArgNameOptional]

/-- `ArgGen` returns the Nth arg name.  The Go source only guards
`index >= len(seq)`; a negative index reaches the slice access `seq[index]`
and raises an out-of-range runtime panic, modelled here as `none`
(the error return is `some (.error _)`, the normal return `some (.ok _)`). -/
def ArgGen (index : Int) : Option (Except String String) :=
  let l : Int := argGenSeq.length
  if index ≥ l then
    some (Except.error "index exceeds arg length")
  else if index < 0 then
    none
  else
    (argGenSeq.get? index.toNat).map Except.ok

/-- The raw view of a `types.Type` pointer as `Build` receives it: a kind
tag together with possibly-nil argument map, map entries and return type
(Go nil pointers are `none`). -/
structure RawType where
  kind : Kind
  ord : List String
  map : Option (List (String × Option MType))
  out : Option MType

/-- The recorded monomorphic signature of the node after `Build`:
`obj.Type` (the struct argument's type) and `obj.Out` (the return type). -/
structure BuiltFunc where
  Type' : Option MType
  Out : Option MType
deriving DecidableEq

/-- `sig` reconstructs the concrete function signature from the recorded
types, `func(struct T1, field str, optional T2) T2`. -/
def sig (obj : BuiltFunc) : Option MType :=
  match obj.Type', obj.Out with
  | some t, some o =>
    some (MType.funcT
      [(structLookupOptionalArgNameStruct, t),
       (structLookupOptionalArgNameField, MType.str),
       (structLookupOptionalArgNameOptional, o)] o)
  | _, _ => none

/-- The type recorded in `typ.Map` for the i-th name of `typ.Ord`
(`none` when the map is nil, the key is absent, or the entry is nil). -/
def argType (typ : RawType) (i : Nat) : Option MType :=
  match typ.map with
  | none => none
  | some m =>
    match VLookup (typ.ord.getD i "") m with
    | some (some t) => some t
    | _ => none

/-- `Build` turns the solved polymorphic signature into the node's static
types, mirroring the source checks in order: kind, arity, return type,
map, each argument, the `str` selector type and the optional/return
agreement.  On success it records `obj.Type = tStruct` and
`obj.Out = typ.Out` and returns the rebuilt signature. -/
def Build (typ : RawType) : Except String (BuiltFunc × Option MType) :=
  if typ.kind ≠ Kind.func then
    .error "input type must be of kind func"
  else if typ.ord.length ≠ 3 then
    .error "the structlookup function needs exactly three args"
  else
    match typ.out with
    | none => .error "return type of function must be specified"
    | some out =>
      match typ.map with
      | none => .error "invalid input type"
      | some m =>
        match VLookup (typ.ord.getD 0 "") m with
        | none => .error "first arg must be specified"
        | some none => .error "first arg must be specified"
        | some (some tStruct) =>
          match VLookup (typ.ord.getD 1 "") m with
          | none => .error "second arg must be specified"
          | some none => .error "second arg must be specified"
          | some (some tField) =>
            match tField.Cmp MType.str with
            | .error e => .error ("field must be an str: " ++ e)
            | .ok _ =>
              match VLookup (typ.ord.getD 2 "") m with
              | none => .error "third arg must be specified"
              | some none => .error "third arg must be specified"
              | some (some tOptional) =>
                match tOptional.Cmp out with
                | .error e => .error ("optional arg must match return type: " ++ e)
                | .ok _ =>
                  let obj : BuiltFunc := ⟨some tStruct, some out⟩
                  .ok (obj, sig obj)

/-- `Validate` re-checks that `Build` has populated a struct-kind container
type and a non-nil return type. -/
def Validate (obj : BuiltFunc) : Except String Unit :=
  match obj.Type' with
  | none => .error "type is still unspecified"
  | some t =>
    if t.kind ≠ Kind.struct then .error "type must be a kind of struct"
    else
      match obj.Out with
      | none => .error "return type must be specified"
      | some _ => .ok ()

/-- The expressions the generator's invariants mention: the call site
(`cfavInvar.Expr`), this function (`expr`), the call arguments
(`cfavInvar.Args[n]`), the four internal placeholders and the throwaway
per-field placeholders. -/
inductive GExpr where
  | callExpr
  | funcExpr
  | callArg (n : Nat)
  | dummyStruct
  | dummyField
  | dummyOptional
  | dummyOut
  | unusedField (name : String)
deriving DecidableEq

/-- The invariant vocabulary exchanged with the solver. -/
inductive Invariant where
  | equals (e : GExpr) (t : MType)
  | equality (e1 e2 : GExpr)
  | equalityWrapFunc (e : GExpr) (argMap : List (String × GExpr)) (argOrd : List String) (out : GExpr)
  | equalityWrapStruct (e : GExpr) (fieldMap : List (String × GExpr)) (fieldOrd : List String)
  | equalityWrapCall (e f : GExpr)
deriving DecidableEq

/-- Is an invariant the structural-decomposition (`EqualityWrapStruct`)
invariant? -/
def Invariant.isWrapStruct : Invariant → Bool
  | .equalityWrapStruct _ _ _ => true
  | _ => false

/-- The two candidate types the generator tries to learn: `t1` the struct
type and `t2` the optional / return type. -/
structure GenState where
  t1 : Option MType
  t2 : Option MType
deriving DecidableEq

/-- Both candidates start unknown (`var t1, t2 *types.Type`). -/
def initGenState : GenState := ⟨none, none⟩

/-- The member-type learning step of `validateArg0` (the block guarded by
`field != ""`): `t, exists := typ.Map[field]`; when the member exists and a
candidate was learned they are compared; then `t2 = t` is assigned
unconditionally — also when the member is absent, which writes nil. -/
def validateArg0T2 (field : String) (st : GenState) (t : Option MType) :
    Except String GenState :=
  if field ≠ "" then
    match t, st.t2 with
    | some tv, some τ =>
      match tv.Cmp τ with
      | .error e => .error ("input type was inconsistent: " ++ e)
      | .ok _ => .ok { st with t2 := t }
    | _, _ => .ok { st with t2 := t }
  else .ok st

/-- `validateArg0` from the generator: checks a candidate type for the
0th (struct) argument.  A non-struct kind is fatal; the member-type step
runs first (`validateArg0T2`), then the struct itself is compared against
and assigned to `t1`. -/
def validateArg0 (field : String) (st : GenState) (typ : MType) : Except String GenState :=
  if typ.kind ≠ Kind.struct then
    .error "unable to build function with 0th arg of wrong kind"
  else
    match validateArg0T2 field st (VLookup field typ.structFields) with
    | .error e => .error e
    | .ok st1 =>
      match st1.t1 with
      | some τ1 =>
        match typ.Cmp τ1 with
        | .error e => .error ("input type was inconsistent: " ++ e)
        | .ok _ => .ok { st1 with t1 := some typ }
      | none => .ok { st1 with t1 := some typ }

/-- `validateArg2OrOut` from the generator: a candidate for the optional /
return type is compared against the learned `t2` and then learned. -/
def validateArg2OrOut (st : GenState) (typ : MType) : Except String GenState :=
  match st.t2 with
  | some τ =>
    match typ.Cmp τ with
    | .error e => .error ("input type was inconsistent: " ++ e)
    | .ok _ => .ok { st with t2 := some typ }
  | none => .ok { st with t2 := some typ }

/-- One observation the generator makes: a candidate struct type for the
0th argument, or a candidate optional/return type (2nd argument or call
return slot). -/
inductive GObs where
  | arg0 (t : MType)
  | arg2out (t : MType)
deriving DecidableEq

/-- Dispatch one observation to the matching validate closure. -/
def genStep (field : String) (st : GenState) : GObs → Except String GenState
  | .arg0 t => validateArg0 field st t
  | .arg2out t => validateArg2OrOut st t

/-- The generator's sequence of validate calls over its observations
(each call aborts the invocation on error, as the Go code returns). -/
def genObsRun (field : String) (st : GenState) : List GObs → Except String GenState
  | [] => .ok st
  | o :: rest =>
    match genStep field st o with
    | .error e => .error e
    | .ok st' => genObsRun field st' rest

/-- The observation list of one generator invocation, in source order:
`Args[0].Type()`, `solved[Args[0]]`, `Args[2].Type()`, `solved[Args[2]]`,
`Expr.Type()`, `solved[Expr]`; absent channels are skipped. -/
def channelObs (o1 o2 o3 o4 o5 o6 : Option MType) : List GObs :=
  (o1.toList.map GObs.arg0) ++ (o2.toList.map GObs.arg0) ++
  (o3.toList.map GObs.arg2out) ++ (o4.toList.map GObs.arg2out) ++
  (o5.toList.map GObs.arg2out) ++ (o6.toList.map GObs.arg2out)

/-- The candidate types observed for the optional/return unknown (`t2`)
over one invocation: the pinned member type of each observed struct (when
the selector is known and the member present) followed by the directly
observed optional/return types. -/
def t2Candidates (field : String) (as bs : List MType) : List MType :=
  (as.filterMap (fun S =>
    if field = "" then none else VLookup field S.structFields)) ++ bs

/-- The `mapped`/`ordered` pair of the structural-decomposition invariant:
every member of the struct gets a throwaway placeholder, the selector's
member the return placeholder (the Go `mapped[field] = dummyOut`
reassignment is redundant in the emitted case, where `field` is a key). -/
def structMapped (ord : List String) (field : String) : List (String × GExpr) :=
  ord.map (fun x => (x, if x = field then GExpr.dummyOut else GExpr.unusedField x))

/-- The unconditional invariants of one generator invocation: the return
and argument equalities and the `str` constraint on the selector. -/
def baseInvariants : List Invariant :=
  [ .equality .callExpr .dummyOut,
    .equality (.callArg 0) .dummyStruct,
    .equality (.callArg 1) .dummyField,
    .equality (.callArg 2) .dummyOptional,
    .equals (.callArg 1) MType.str ]

/-- The data one generator invocation works from, once the
`CallFuncArgsValueInvariant` for this call site has been found:
the call-site arity, the statically known value of the selector argument
(if any), and the six optional type channels. -/
structure GenInput where
  argCount : Nat
  arg1Value : Option MValue
  arg0Type : Option MType
  arg0Solved : Option MType
  arg2Type : Option MType
  arg2Solved : Option MType
  outType : Option MType
  outSolved : Option MType

/-- The body of one generator invocation (source lines 176–388): check
arity, read the selector value if known (a non-str known value is fatal),
run the six observation channels through the validate closures, then emit
the invariants: the base set, `Equals(dummyStruct, t1)` plus the
structural decomposition when the member exists, `Equals(dummyOptional, t2)`
and `Equals(dummyOut, t2)`, and the call-identity invariant. -/
def genBody (inp : GenInput) : Except String (List Invariant) :=
  if inp.argCount ≠ 3 then
    .error "unable to build function with wrong number of args"
  else
    let fieldE : Except String String :=
      match inp.arg1Value with
      | none => .ok ""
      | some (.strV s) => .ok s
      | some _ => .error "unable to build function with 1st arg of wrong kind"
    match fieldE with
    | .error e => .error e
    | .ok field =>
      match genObsRun field initGenState
          (channelObs inp.arg0Type inp.arg0Solved inp.arg2Type inp.arg2Solved
            inp.outType inp.outSolved) with
      | .error e => .error e
      | .ok st =>
        let t1Invs : List Invariant :=
          match st.t1 with
          | none => []
          | some t1v =>
            [Invariant.equals .dummyStruct t1v] ++
            (if field ≠ "" ∧ (VLookup field t1v.structFields).isSome then
              [Invariant.equalityWrapStruct .dummyStruct
                (structMapped (t1v.structFields.map Prod.fst) field)
                (t1v.structFields.map Prod.fst)]
            else [])
        let t2Invs : List Invariant :=
          match st.t2 with
          | none => []
          | some t2v =>
            [Invariant.equals .dummyOptional t2v, Invariant.equals .dummyOut t2v]
        .ok (baseInvariants ++ t1Invs ++ t2Invs ++
             [Invariant.equalityWrapCall .callExpr .funcExpr])

/-- The generator closure including the not-found case: when no call-site
fact for this expression is present, the invocation reports the
recoverable "couldn't generate new invariants" outcome. -/
def generatorFn (found : Option GenInput) : Except String (List Invariant) :=
  match found with
  | none => .error "couldn't generate new invariants"
  | some inp => genBody inp

/-- The node's private streaming state: `obj.last` (last received input),
`obj.field` (pinned selector name, `""` while unpinned) and `obj.result`
(last computed output). -/
structure NodeState where
  last : Option MValue
  field : String
  result : Option MValue
deriving DecidableEq

/-- Go zero values: no last input, empty pinned field, no result. -/
def initState : NodeState := ⟨none, "", none⟩

/-- The three components the loop extracts from one input aggregate. -/
structure AggParts where
  stFields : List (String × MValue)
  field : String
  optional : MValue

/-- Extraction of the aggregate's members as the loop performs it:
`input.Struct()["struct"]` asserted to a struct value, `.["field"].Str()`
and `.["optional"]`; any failed lookup or type assertion is a Go runtime
panic, modelled as `none`. -/
def parseAgg (input : MValue) : Option AggParts :=
  match input with
  | .structV m =>
    match VLookup structLookupOptionalArgNameStruct m,
          VLookup structLookupOptionalArgNameField m,
          VLookup structLookupOptionalArgNameOptional m with
    | some (.structV sf), some (.strV f), some o => some ⟨sf, f, o⟩
    | _, _, _ => none
  | _ => none

/-- The selector name carried by an aggregate, when it parses. -/
def inputFieldName (v : MValue) : Option String :=
  (parseAgg v).map AggParts.field

/-- The outcome of one loop iteration on one input: continue without
sending (`skip`), continue after computing a new result to send (`emit`),
or return with a fatal error (`fail`). -/
inductive StepOut where
  | skip (st : NodeState)
  | emit (st : NodeState) (v : MValue)
  | fail (e : String)
deriving DecidableEq

/-- The Go `err == nil` test on a comparison result. -/
def errIsNil : Except String Unit → Bool
  | .ok _ => true
  | .error _ => false

/-- The selector the node is pinned to after one input: the incoming name
when nothing was pinned yet (`obj.field == ""`), else the pinned name. -/
def pinnedField (objField incoming : String) : String :=
  if objField = "" then incoming else objField

/-- The value the loop computes for one aggregate (source lines 533–539):
`val, exists := st.Lookup(field)`, the member when it exists, else the
fallback. -/
def lookupResult (c : List (String × MValue)) (f : String) (o : MValue) : MValue :=
  match VLookup f c with
  | some val => val
  | none => o

/-- One iteration of the `Stream` loop body on a received input (source
lines 510–547): duplicate-input suppression via `Cmp`, storing `last`,
member extraction, the empty-selector and selector-pinning checks, the
lookup-or-fallback computation and duplicate-result suppression.
`none` models the Go panic on a malformed aggregate. -/
def streamStep (obj : NodeState) (input : MValue) : Option StepOut :=
  if (match obj.last with
      | some l => errIsNil (input.Cmp l)
      | none => false) then
    some (.skip obj)
  else
    match parseAgg input with
    | none => none
    | some p =>
      if p.field = "" then
        some (.fail "received empty field")
      else
        if p.field ≠ pinnedField obj.field p.field then
          some (.fail ("input field changed from: " ++
            pinnedField obj.field p.field ++ ", to: " ++ p.field))
        else
          if (match obj.result with
              | some r => errIsNil ((lookupResult p.stFields p.field p.optional).Cmp r)
              | none => false) then
            some (.skip ⟨some input, pinnedField obj.field p.field, obj.result⟩)
          else
            some (.emit
              ⟨some input, pinnedField obj.field p.field,
               some (lookupResult p.stFields p.field p.optional)⟩
              (lookupResult p.stFields p.field p.optional))

/-- One event the loop can observe: an input value arriving (with a flag
telling whether cancellation wins the race at the subsequent send), the
input channel closing, or cancellation firing at the receive. -/
inductive Msg where
  | val (v : MValue) (cancelAtSend : Bool)
  | closeInput
  | cancel
deriving DecidableEq

/-- Externally visible events: a value sent on the output channel, or the
output channel being closed. -/
inductive OutEv where
  | out (v : MValue)
  | closed
deriving DecidableEq

/-- Is the event a value emission? -/
def OutEv.isOut : OutEv → Bool
  | .out _ => true
  | .closed => false

/-- How a (finite) run ends: the loop is still waiting for the next event
(`pending`), or `Stream` returned (`done`), with its error if any. -/
inductive RunEnd where
  | pending (st : NodeState)
  | done (err : Option String)
deriving DecidableEq

/-- The `Stream` loop over a schedule of events.  Every return path runs
the deferred `close(obj.init.Output)`, appending `OutEv.closed`; a
malformed aggregate (Go panic) yields `none`. -/
def streamRun (st : NodeState) : List Msg → Option (List OutEv × RunEnd)
  | [] => some ([], .pending st)
  | Msg.closeInput :: _ => some ([.closed], .done none)
  | Msg.cancel :: _ => some ([.closed], .done none)
  | Msg.val v b :: rest =>
    match streamStep st v with
    | none => none
    | some (.fail e) => some ([.closed], .done (some e))
    | some (.skip st') => streamRun st' rest
    | some (.emit st' r) =>
      if b then
        some ([.closed], .done none)
      else
        match streamRun st' rest with
        | none => none
        | some (tr, e) => some (.out r :: tr, e)

/-- A state is reachable when some event schedule leaves the freshly
initialized node waiting in it. -/
def Reaches (st : NodeState) : Prop :=
  ∃ msgs tr, streamRun initState msgs = some (tr, RunEnd.pending st)

/-- The canonical input aggregate: container fields, selector name and
fallback value packed as the engine delivers them. -/
def mkInput (c : List (String × MValue)) (f : String) (o : MValue) : MValue :=
  .structV
    [(structLookupOptionalArgNameStruct, .structV c),
     (structLookupOptionalArgNameField, .strV f),
     (structLookupOptionalArgNameOptional, o)]

/-! ### Sample inputs used by the witnesses -/

/-- A sample struct type with fields `a : int` and `b : str`. -/
def sampleS0 : MType := .structT [("a", .int), ("b", .str)]

/-- A well-formed function signature for `Build`. -/
def t0 : RawType :=
  ⟨Kind.func, ["struct", "field", "optional"],
   some [("struct", some sampleS0), ("field", some MType.str),
         ("optional", some MType.int)], some MType.int⟩

/-- A function signature whose first argument is a non-struct type. -/
def t9 : RawType :=
  ⟨Kind.func, ["struct", "field", "optional"],
   some [("struct", some MType.int), ("field", some MType.str),
         ("optional", some MType.int)], some MType.int⟩

/-- A sample aggregate: container with member `a = 7`, selector `a`,
fallback `5`. -/
def inp0 : MValue := mkInput [("a", MValue.intV 7)] "a" (MValue.intV 5)

/-- The node state after processing `inp0` from the initial state. -/
def st0after : NodeState := ⟨some inp0, "a", some (MValue.intV 7)⟩

/-- A changed aggregate whose looked-up outcome is still `7`. -/
def inp7 : MValue := mkInput [("a", MValue.intV 7), ("c", MValue.intV 0)] "a" (MValue.intV 5)

/-- Invariant of every reachable waiting state: a recorded last input
carries the pinned selector, which is then non-empty, and before any
input is recorded nothing is pinned. -/
def StateInv (st : NodeState) : Prop :=
  (st.last = none → st.field = "") ∧
  (∀ v, st.last = some v → inputFieldName v = some st.field ∧ st.field ≠ "")

/-! ### Claim theorems -/

/-- C2, counterexample: the claim says every index outside `[0,3)` makes
`ArgGen` return an error, but at index `-1` the source's only guard
(`index >= len(seq)`) is passed and the slice access panics instead of
returning an error. -/
theorem c2_counterexample : ¬ ∃ e, ArgGen (-1) = some (Except.error e) := by
  rintro ⟨e, h⟩
  rw [show ArgGen (-1) = none from rfl] at h
  exact Option.noConfusion h

/-- C2 (amended): `ArgGen` returns an error for every index `≥ 3`, returns
the fixed argument names at indices `0`, `1`, `2`, and panics (does not
return an error) for negative indices. -/
theorem c2_amended (i : Int) :
    (3 ≤ i → ArgGen i = some (Except.error "index exceeds arg length")) ∧
    (i < 0 → ArgGen i = none) ∧
    ArgGen 0 = some (Except.ok structLookupOptionalArgNameStruct) ∧
    ArgGen 1 = some (Except.ok structLookupOptionalArgNameField) ∧
    ArgGen 2 = some (Except.ok structLookupOptionalArgNameOptional) := by
  have hlen : ((argGenSeq.length : Nat) : Int) = 3 := rfl
  refine ⟨?_, ?_, rfl, rfl, rfl⟩
  · intro h
    unfold ArgGen
    rw [hlen, if_pos (by omega)]
  · intro h
    unfold ArgGen
    rw [hlen, if_neg (by omega), if_pos h]

/-- C2 witness: the amended claim at indices `5` and `-2`. -/
theorem c2_amended_witness :
    ArgGen 5 = some (Except.error "index exceeds arg length") ∧
    ArgGen (-2) = none :=
  ⟨(c2_amended 5).1 (by omega), (c2_amended (-2)).2.1 (by omega)⟩

/-- Inversion of a successful `Build`: every precondition of the claim
holds and the recorded signature comes from the input. -/
theorem Build_ok_inv {typ : RawType} {r : BuiltFunc × Option MType}
    (h : Build typ = Except.ok r) :
    typ.kind = Kind.func ∧ typ.ord.length = 3 ∧ typ.out ≠ none ∧
    argType typ 0 ≠ none ∧ argType typ 1 = some MType.str ∧
    argType typ 2 = typ.out ∧
    r.1.Type' = argType typ 0 ∧ r.1.Out = typ.out := by
  unfold Build at h
  split_ifs at h with h1 h2
  push_neg at h1 h2
  split at h
  · exact Except.noConfusion h
  rename_i out hout
  split at h
  · exact Except.noConfusion h
  rename_i m hmap
  split at h
  · exact Except.noConfusion h
  · exact Except.noConfusion h
  rename_i tStruct ha0
  split at h
  · exact Except.noConfusion h
  · exact Except.noConfusion h
  rename_i tField ha1
  split at h
  · exact Except.noConfusion h
  rename_i u1 hc1
  split at h
  · exact Except.noConfusion h
  · exact Except.noConfusion h
  rename_i tOptional ha2
  split at h
  · exact Except.noConfusion h
  rename_i u2 hc2
  have hfield : tField = MType.str := by
    by_contra hne
    simp [MType.Cmp, hne] at hc1
  have hopt : tOptional = out := by
    by_contra hne
    simp [MType.Cmp, hne] at hc2
  have hr := (Except.ok.inj h).symm
  subst hfield hopt
  simp only [List.getD_eq_getElem?_getD] at ha0 ha1 ha2
  refine ⟨h1, h2, by simp [hout], ?_, ?_, ?_, ?_, ?_⟩ <;>
    simp [argType, hmap, ha0, ha1, ha2, hout, hr]

/-- C3: `Build` errors whenever the input is not of function kind, or its
arity differs from 3, or any argument type or the return type is missing,
or the selector argument's type is not `str`, or the optional argument's
type differs from the return type; on success the first argument's type
and the return type are recorded as the node's signature. -/
theorem c3 (typ : RawType) :
    ((typ.kind ≠ Kind.func ∨ typ.ord.length ≠ 3 ∨ typ.out = none ∨
      argType typ 0 = none ∨ argType typ 1 = none ∨ argType typ 2 = none ∨
      argType typ 1 ≠ some MType.str ∨ argType typ 2 ≠ typ.out) →
      ∃ e, Build typ = Except.error e) ∧
    (∀ r, Build typ = Except.ok r →
      r.1.Type' = argType typ 0 ∧ r.1.Out = typ.out) := by
  constructor
  · intro hcond
    rcases hb : Build typ with e | r
    · exact ⟨e, rfl⟩
    obtain ⟨h1, h2, h3, h4, h5, h6, _, _⟩ := Build_ok_inv hb
    rcases hcond with h | h | h | h | h | h | h | h
    · exact absurd h1 h
    · exact absurd h2 h
    · exact absurd h h3
    · exact absurd h h4
    · rw [h] at h5; exact Option.noConfusion h5
    · rw [h] at h6; exact (h3 h6.symm).elim
    · exact absurd h5 h
    · exact absurd h6 h
  · intro r hr
    obtain ⟨_, _, _, _, _, _, hT, hO⟩ := Build_ok_inv hr
    exact ⟨hT, hO⟩

/-- C3 witness: `Build` at a concrete well-formed signature records the
struct type and the return type. -/
theorem c3_witness :
    (⟨some sampleS0, some MType.int⟩ : BuiltFunc).Type' = argType t0 0 ∧
    (⟨some sampleS0, some MType.int⟩ : BuiltFunc).Out = t0.out :=
  (c3 t0).2 (⟨some sampleS0, some MType.int⟩,
    sig ⟨some sampleS0, some MType.int⟩) rfl

/-- C9: `Build` does not require the first argument to be of struct kind —
a signature with an `int` container builds successfully — and `Validate`
errors exactly when the recorded container type is nil, or not of struct
kind, or the recorded return type is nil. -/
theorem c9 :
    (∃ r, Build t9 = Except.ok r ∧ r.1.Type' = some MType.int ∧
      MType.int.kind ≠ Kind.struct) ∧
    (∀ T O : Option MType,
      (∃ e, Validate ⟨T, O⟩ = Except.error e) ↔
        (T = none ∨ (∃ s, T = some s ∧ s.kind ≠ Kind.struct) ∨ O = none)) := by
  constructor
  · exact ⟨(⟨some MType.int, some MType.int⟩,
      sig ⟨some MType.int, some MType.int⟩), rfl, rfl, by decide⟩
  · intro T O
    constructor
    · rintro ⟨e, he⟩
      rcases T with _ | s
      · exact Or.inl rfl
      rcases hks : s.kind == Kind.struct with _ | _
      · have : s.kind ≠ Kind.struct := by
          intro hh; rw [hh] at hks; simp at hks
        exact Or.inr (Or.inl ⟨s, rfl, this⟩)
      · have hk : s.kind = Kind.struct := by
          have := of_decide_eq_true (by exact hks)
          exact this
        rcases O with _ | o
        · exact Or.inr (Or.inr rfl)
        · exfalso
          simp [Validate, hk] at he
    · rintro (h | ⟨s, hs, hk⟩ | h)
      · subst h; exact ⟨"type is still unspecified", rfl⟩
      · subst hs
        refine ⟨"type must be a kind of struct", ?_⟩
        simp [Validate, hk]
      · subst h
        rcases T with _ | s
        · exact ⟨"type is still unspecified", rfl⟩
        by_cases hk : s.kind = Kind.struct
        · exact ⟨"return type must be specified", by simp [Validate, hk]⟩
        · exact ⟨"type must be a kind of struct", by simp [Validate, hk]⟩

/-- C9 witness: the characterization applied to the non-struct container
type recorded from `t9`. -/
theorem c9_witness :
    ∃ e, Validate ⟨some MType.int, some MType.int⟩ = Except.error e :=
  (c9.2 (some MType.int) (some MType.int)).mpr
    (Or.inr (Or.inl ⟨MType.int, rfl, by decide⟩))

/-! ### Stream loop lemmas -/

/-- A canonical aggregate parses into its three components. -/
theorem parseAgg_mkInput (c : List (String × MValue)) (f : String) (o : MValue) :
    parseAgg (mkInput c f o) = some ⟨c, f, o⟩ := rfl

/-- A received input `Cmp`-identical to the previous one is skipped with
the node state untouched. -/
theorem streamStep_dup {st : NodeState} {v : MValue} (h : st.last = some v) :
    streamStep st v = some (StepOut.skip st) := by
  unfold streamStep
  rw [h]
  simp [MValue.Cmp, errIsNil]

/-- The duplicate-input guard is false when the incoming value differs
from the last received one. -/
theorem streamStep_guard_false {st : NodeState} {v : MValue}
    (hdup : st.last ≠ some v) :
    (match st.last with
      | some l => errIsNil (v.Cmp l)
      | none => false) = false := by
  rcases hl : st.last with _ | l
  · rfl
  · have hne : v ≠ l := by
      intro hh
      exact hdup (by rw [hl, hh])
    simp [MValue.Cmp, hne, errIsNil]

/-- Evaluation of one loop iteration on a fresh (non-duplicate) aggregate
whose selector is non-empty and compatible with the pinned name. -/
theorem streamStep_fresh (st : NodeState) (c : List (String × MValue))
    (f : String) (o : MValue)
    (hdup : st.last ≠ some (mkInput c f o)) (hf : f ≠ "")
    (hpin : st.field = "" ∨ st.field = f) :
    streamStep st (mkInput c f o) =
      if st.result = some (lookupResult c f o) then
        some (StepOut.skip ⟨some (mkInput c f o), f, st.result⟩)
      else
        some (StepOut.emit ⟨some (mkInput c f o), f, some (lookupResult c f o)⟩
          (lookupResult c f o)) := by
  have hpin' : pinnedField st.field f = f := by
    rcases hpin with hp | hp
    · simp [pinnedField, hp]
    · rw [pinnedField, hp]
      simp
  simp only [streamStep, streamStep_guard_false hdup, Bool.false_eq_true, if_false,
    parseAgg_mkInput, hpin']
  rcases hr : st.result with _ | r
  · simp [hf]
  · by_cases hres : lookupResult c f o = r
    · simp [MValue.Cmp, errIsNil, hf, hres]
    · simp [MValue.Cmp, errIsNil, hf, hres, Ne.symm hres]

/-- An aggregate with an empty selector that is not suppressed as a
duplicate makes the loop fail fatally. -/
theorem streamStep_empty (st : NodeState) (c : List (String × MValue))
    (o : MValue) (hdup : st.last ≠ some (mkInput c "" o)) :
    streamStep st (mkInput c "" o) = some (StepOut.fail "received empty field") := by
  simp only [streamStep, streamStep_guard_false hdup, Bool.false_eq_true, if_false,
    parseAgg_mkInput]
  simp

/-- An aggregate carrying a non-empty selector different from the pinned
one makes the loop fail fatally. -/
theorem streamStep_retarget (st : NodeState) (c : List (String × MValue))
    (f : String) (o : MValue) (hdup : st.last ≠ some (mkInput c f o))
    (hf : f ≠ "") (hsf : st.field ≠ "") (hne : f ≠ st.field) :
    streamStep st (mkInput c f o) =
      some (StepOut.fail ("input field changed from: " ++ st.field ++ ", to: " ++ f)) := by
  have hp : pinnedField st.field f = st.field := by simp [pinnedField, hsf]
  simp only [streamStep, streamStep_guard_false hdup, Bool.false_eq_true, if_false,
    parseAgg_mkInput, hp]
  simp [hf, hne]

/-- Inversion of a `skip` outcome: either the duplicate-input suppression
fired and the state is untouched, or the duplicate-result suppression
fired after a successful parse and selector check. -/
theorem streamStep_skip_inv {st : NodeState} {v : MValue} {st' : NodeState}
    (h : streamStep st v = some (StepOut.skip st')) :
    (st' = st ∧ st.last = some v) ∨
    (∃ p, parseAgg v = some p ∧ p.field ≠ "" ∧
      st' = ⟨some v, p.field, st.result⟩ ∧ (st.field = "" ∨ st.field = p.field) ∧
      st.result = some (lookupResult p.stFields p.field p.optional)) := by
  unfold streamStep at h
  split at h
  · rename_i hguard
    left
    rcases hl : st.last with _ | l
    · rw [hl] at hguard; simp at hguard
    · rw [hl] at hguard
      have hveq : v = l := by
        by_contra hne
        simp [MValue.Cmp, hne, errIsNil] at hguard
      have hs := StepOut.skip.inj (Option.some.inj h)
      subst hveq
      exact ⟨hs.symm, rfl⟩
  · split at h
    · exact Option.noConfusion h
    rename_i p hp
    split at h
    · exact StepOut.noConfusion (Option.some.inj h)
    rename_i hfne
    split at h
    · exact StepOut.noConfusion (Option.some.inj h)
    rename_i hmis
    push_neg at hmis
    have hpin2 : pinnedField st.field p.field = p.field := hmis.symm
    have hpinor : st.field = "" ∨ st.field = p.field := by
      by_cases hsf : st.field = ""
      · exact Or.inl hsf
      · right
        have h2 := hpin2
        unfold pinnedField at h2
        rw [if_neg hsf] at h2
        exact h2
    split at h
    · rename_i hres
      right
      have hs := StepOut.skip.inj (Option.some.inj h)
      refine ⟨p, hp, hfne, ?_, hpinor, ?_⟩
      · rw [← hs, hpin2]
      · rcases hsr : st.result with _ | r
        · rw [hsr] at hres; simp at hres
        · rw [hsr] at hres
          have hlr : lookupResult p.stFields p.field p.optional = r := by
            by_contra hne
            simp [MValue.Cmp, hne, errIsNil] at hres
          rw [hlr]
    · exact StepOut.noConfusion (Option.some.inj h)

/-- Inversion of an `emit` outcome: the aggregate parsed, the selector was
non-empty and compatible, the sent value is the member-or-fallback result
and the state records input, pinned selector and result. -/
theorem streamStep_emit_inv {st : NodeState} {v : MValue} {st' : NodeState} {r : MValue}
    (h : streamStep st v = some (StepOut.emit st' r)) :
    ∃ p, parseAgg v = some p ∧ p.field ≠ "" ∧
      (st.field = "" ∨ st.field = p.field) ∧
      r = lookupResult p.stFields p.field p.optional ∧
      st' = ⟨some v, p.field, some r⟩ := by
  unfold streamStep at h
  split at h
  · exact StepOut.noConfusion (Option.some.inj h)
  · split at h
    · exact Option.noConfusion h
    rename_i p hp
    split at h
    · exact StepOut.noConfusion (Option.some.inj h)
    rename_i hfne
    split at h
    · exact StepOut.noConfusion (Option.some.inj h)
    rename_i hmis
    push_neg at hmis
    have hpin2 : pinnedField st.field p.field = p.field := hmis.symm
    have hpinor : st.field = "" ∨ st.field = p.field := by
      by_cases hsf : st.field = ""
      · exact Or.inl hsf
      · right
        have h2 := hpin2
        unfold pinnedField at h2
        rw [if_neg hsf] at h2
        exact h2
    split at h
    · exact StepOut.noConfusion (Option.some.inj h)
    · have hs := StepOut.emit.inj (Option.some.inj h)
      refine ⟨p, hp, hfne, hpinor, hs.2.symm, ?_⟩
      rw [← hs.1, hpin2, hs.2]

/-! ### Reachable-state invariant -/

/-- The initial state satisfies the invariant. -/
theorem StateInv_init : StateInv initState := by
  constructor
  · intro _; rfl
  · intro v hv; exact Option.noConfusion hv

/-- A `skip` outcome preserves the invariant. -/
theorem StateInv_step_skip {st st' : NodeState} {v : MValue}
    (hinv : StateInv st) (h : streamStep st v = some (StepOut.skip st')) :
    StateInv st' := by
  rcases streamStep_skip_inv h with ⟨hs, _⟩ | ⟨p, hp, hfne, hs, _, _⟩
  · rw [hs]; exact hinv
  · subst hs
    constructor
    · intro hl; exact Option.noConfusion hl
    · intro w hw
      have hwv : w = v := (Option.some.inj hw).symm
      subst hwv
      exact ⟨by simp [inputFieldName, hp], hfne⟩

/-- An `emit` outcome preserves the invariant. -/
theorem StateInv_step_emit {st st' : NodeState} {v r : MValue}
    (_hinv : StateInv st) (h : streamStep st v = some (StepOut.emit st' r)) :
    StateInv st' := by
  obtain ⟨p, hp, hfne, _, _, hs⟩ := streamStep_emit_inv h
  subst hs
  constructor
  · intro hl; exact Option.noConfusion hl
  · intro w hw
    have hwv : w = v := (Option.some.inj hw).symm
    subst hwv
    exact ⟨by simp [inputFieldName, hp], hfne⟩

/-- Any finite run that leaves the node waiting preserves the invariant. -/
theorem streamRun_pending_inv {msgs : List Msg} {st st' : NodeState} {tr : List OutEv}
    (hinv : StateInv st) (h : streamRun st msgs = some (tr, RunEnd.pending st')) :
    StateInv st' := by
  induction msgs generalizing st tr with
  | nil =>
    rw [streamRun] at h
    have hp := Prod.mk.inj (Option.some.inj h)
    have hst := RunEnd.pending.inj hp.2
    rw [← hst]
    exact hinv
  | cons m rest ih =>
    cases m with
    | closeInput =>
      rw [streamRun] at h
      exact RunEnd.noConfusion (Prod.mk.inj (Option.some.inj h)).2
    | cancel =>
      rw [streamRun] at h
      exact RunEnd.noConfusion (Prod.mk.inj (Option.some.inj h)).2
    | val v b =>
      rw [streamRun] at h
      rcases hstep : streamStep st v with _ | s
      · rw [hstep] at h; exact Option.noConfusion h
      rcases s with st2 | ⟨st2, r⟩ | er
      · simp only [hstep] at h
        exact ih (StateInv_step_skip hinv hstep) h
      · simp only [hstep] at h
        rcases b with _ | _
        · simp only [Bool.false_eq_true, if_false] at h
          rcases hrest : streamRun st2 rest with _ | ⟨tr2, e2⟩
          · rw [hrest] at h; exact Option.noConfusion h
          · simp only [hrest] at h
            have hp := Prod.mk.inj (Option.some.inj h)
            rw [hp.2] at hrest
            exact ih (StateInv_step_emit hinv hstep) hrest
        · simp only [if_true] at h
          exact RunEnd.noConfusion (Prod.mk.inj (Option.some.inj h)).2
      · simp only [hstep] at h
        exact RunEnd.noConfusion (Prod.mk.inj (Option.some.inj h)).2

/-- Every reachable state satisfies the invariant. -/
theorem Reaches_inv {st : NodeState} (h : Reaches st) : StateInv st := by
  obtain ⟨msgs, tr, hr⟩ := h
  exact streamRun_pending_inv StateInv_init hr

/-- C4: over the node's lifetime (any reachable waiting state), an input
with an empty selector fails fatally (also on the very first input), an
input with a different non-empty selector than the pinned one fails
fatally, and inputs repeating the pinned selector (or arriving before
anything is pinned) never fail. -/
theorem c4 (st : NodeState) (hreach : Reaches st) (c : List (String × MValue))
    (f : String) (o : MValue) :
    (f = "" → streamStep st (mkInput c f o) = some (StepOut.fail "received empty field")) ∧
    (f ≠ "" → st.field ≠ "" → f ≠ st.field →
      streamStep st (mkInput c f o) =
        some (StepOut.fail ("input field changed from: " ++ st.field ++ ", to: " ++ f))) ∧
    (f ≠ "" → (st.field = "" ∨ st.field = f) →
      ∀ e, streamStep st (mkInput c f o) ≠ some (StepOut.fail e)) := by
  have hinv := Reaches_inv hreach
  refine ⟨?_, ?_, ?_⟩
  · intro hf
    subst hf
    apply streamStep_empty
    intro hl
    obtain ⟨hfn, hne⟩ := hinv.2 _ hl
    simp [inputFieldName, parseAgg_mkInput] at hfn
    exact hne hfn.symm
  · intro hf hsf hne
    apply streamStep_retarget st c f o ?_ hf hsf hne
    intro hl
    obtain ⟨hfn, _⟩ := hinv.2 _ hl
    simp [inputFieldName, parseAgg_mkInput] at hfn
    exact hne hfn
  · intro hf hpin e
    by_cases hdup : st.last = some (mkInput c f o)
    · rw [streamStep_dup hdup]
      intro hh
      exact StepOut.noConfusion (Option.some.inj hh)
    · rw [streamStep_fresh st c f o hdup hf hpin]
      split <;> (intro hh; exact StepOut.noConfusion (Option.some.inj hh))

/-- C4 witness: the empty selector fails on the very first input. -/
theorem c4_witness :
    streamStep initState (mkInput [] "" (MValue.intV 0)) =
      some (StepOut.fail "received empty field") :=
  (c4 initState ⟨[], [], rfl⟩ [] "" (MValue.intV 0)).1 rfl

/-- C5: a fresh aggregate with a valid selector produces, as the computed
result, the container's member under the selector when it exists, and the
fallback exactly when it does not; the only possible outcomes are
emitting that result or suppressing it because it equals the previous
result. -/
theorem c5 (st : NodeState) (c : List (String × MValue)) (f : String) (o : MValue)
    (hdup : st.last ≠ some (mkInput c f o)) (hf : f ≠ "")
    (hpin : st.field = "" ∨ st.field = f) :
    (∀ v, VLookup f c = some v →
      streamStep st (mkInput c f o) =
          some (StepOut.emit ⟨some (mkInput c f o), f, some v⟩ v) ∨
        (st.result = some v ∧
          streamStep st (mkInput c f o) =
            some (StepOut.skip ⟨some (mkInput c f o), f, st.result⟩))) ∧
    (VLookup f c = none →
      streamStep st (mkInput c f o) =
          some (StepOut.emit ⟨some (mkInput c f o), f, some o⟩ o) ∨
        (st.result = some o ∧
          streamStep st (mkInput c f o) =
            some (StepOut.skip ⟨some (mkInput c f o), f, st.result⟩))) := by
  have hstep := streamStep_fresh st c f o hdup hf hpin
  constructor
  · intro v hv
    have hlr : lookupResult c f o = v := by simp [lookupResult, hv]
    rw [hlr] at hstep
    by_cases hres : st.result = some v
    · right
      exact ⟨hres, by rw [hstep, if_pos hres]⟩
    · left
      rw [hstep, if_neg hres]
  · intro hv
    have hlr : lookupResult c f o = o := by simp [lookupResult, hv]
    rw [hlr] at hstep
    by_cases hres : st.result = some o
    · right
      exact ⟨hres, by rw [hstep, if_pos hres]⟩
    · left
      rw [hstep, if_neg hres]

/-- C5 witness: looking up `a` in a container with member `a = 7` and
fallback `5` emits `7`. -/
theorem c5_witness :
    streamStep initState (mkInput [("a", MValue.intV 7)] "a" (MValue.intV 5)) =
        some (StepOut.emit ⟨some (mkInput [("a", MValue.intV 7)] "a" (MValue.intV 5)), "a",
          some (MValue.intV 7)⟩ (MValue.intV 7)) ∨
      (initState.result = some (MValue.intV 7) ∧
        streamStep initState (mkInput [("a", MValue.intV 7)] "a" (MValue.intV 5)) =
          some (StepOut.skip ⟨some (mkInput [("a", MValue.intV 7)] "a" (MValue.intV 5)), "a",
            initState.result⟩)) :=
  (c5 initState [("a", MValue.intV 7)] "a" (MValue.intV 5)
    (fun hh => Option.noConfusion hh) (by decide) (Or.inl rfl)).1 (MValue.intV 7) rfl

/-- C6: an input `Cmp`-identical to the previous one is skipped entirely
with the state untouched, and any two consecutive identical aggregates
yield at most one emission. -/
theorem c6 (st : NodeState) (v : MValue) :
    (st.last = some v → streamStep st v = some (StepOut.skip st)) ∧
    (∀ b1 b2 tr e, streamRun st [Msg.val v b1, Msg.val v b2] = some (tr, e) →
      (tr.filter OutEv.isOut).length ≤ 1) := by
  constructor
  · exact streamStep_dup
  · intro b1 b2 tr e h
    rw [streamRun] at h
    rcases hstep : streamStep st v with _ | s
    · rw [hstep] at h; exact Option.noConfusion h
    rcases s with st2 | ⟨st2, r⟩ | er
    · -- first input skipped: the second is a duplicate of `last`
      simp only [hstep] at h
      have hl2 : st2.last = some v := by
        rcases streamStep_skip_inv hstep with ⟨hs, hl⟩ | ⟨p, _, _, hs, _, _⟩
        · rw [hs]; exact hl
        · rw [hs]
      rw [streamRun] at h
      simp only [streamStep_dup hl2] at h
      rw [streamRun] at h
      have hp := Prod.mk.inj (Option.some.inj h)
      rw [← hp.1]
      simp [OutEv.isOut]
    · simp only [hstep] at h
      have hl2 : st2.last = some v := by
        obtain ⟨p, _, _, _, _, hs⟩ := streamStep_emit_inv hstep
        rw [hs]
      rcases b1 with _ | _
      · simp only [Bool.false_eq_true, if_false] at h
        rw [streamRun] at h
        simp only [streamStep_dup hl2] at h
        rw [streamRun] at h
        have hp := Prod.mk.inj (Option.some.inj h)
        rw [← hp.1]
        simp [OutEv.isOut]
      · simp only [if_true] at h
        have hp := Prod.mk.inj (Option.some.inj h)
        rw [← hp.1]
        simp [OutEv.isOut]
    · simp only [hstep] at h
      have hp := Prod.mk.inj (Option.some.inj h)
      rw [← hp.1]
      simp [OutEv.isOut]

/-- C6 witness: sending `inp0` twice in a row from the initial state emits
exactly once. -/
theorem c6_witness :
    (([OutEv.out (MValue.intV 7)] : List OutEv).filter OutEv.isOut).length ≤ 1 :=
  (c6 initState inp0).2 false false [OutEv.out (MValue.intV 7)]
    (RunEnd.pending st0after) rfl

/-- C7: when the inputs changed but the freshly computed lookup result is
`Cmp`-identical to the previous result, the emission is suppressed. -/
theorem c7 (st : NodeState) (c : List (String × MValue)) (f : String) (o : MValue)
    (hdup : st.last ≠ some (mkInput c f o)) (hf : f ≠ "")
    (hpin : st.field = "" ∨ st.field = f)
    (hres : st.result = some (lookupResult c f o)) :
    streamStep st (mkInput c f o) =
      some (StepOut.skip ⟨some (mkInput c f o), f, st.result⟩) := by
  rw [streamStep_fresh st c f o hdup hf hpin, if_pos hres]

/-- C7 witness: after emitting `7` for `inp0`, the changed aggregate
`inp7` (extra member, different fallback) computes `7` again and is
suppressed. -/
theorem c7_witness :
    streamStep st0after inp7 =
      some (StepOut.skip ⟨some inp7, "a", st0after.result⟩) :=
  c7 st0after [("a", MValue.intV 7), ("c", MValue.intV 0)] "a" (MValue.intV 5)
    (by decide) (by decide) (Or.inr rfl) rfl

/-- C10: every terminating run closes the output channel exactly once, as
the last event before returning, and a still-waiting run has not closed
it. -/
theorem c10 (st : NodeState) (msgs : List Msg) :
    (∀ tr e, streamRun st msgs = some (tr, RunEnd.done e) →
      ∃ pre, tr = pre ++ [OutEv.closed] ∧ OutEv.closed ∉ pre) ∧
    (∀ tr st', streamRun st msgs = some (tr, RunEnd.pending st') →
      OutEv.closed ∉ tr) := by
  induction msgs generalizing st with
  | nil =>
    constructor
    · intro tr e h
      rw [streamRun] at h
      exact RunEnd.noConfusion (Prod.mk.inj (Option.some.inj h)).2
    · intro tr st' h
      rw [streamRun] at h
      have hp := Prod.mk.inj (Option.some.inj h)
      rw [← hp.1]
      simp
  | cons m rest ih =>
    cases m with
    | closeInput =>
      constructor
      · intro tr e h
        rw [streamRun] at h
        have hp := Prod.mk.inj (Option.some.inj h)
        exact ⟨[], by rw [← hp.1]; rfl, by simp⟩
      · intro tr st' h
        rw [streamRun] at h
        exact RunEnd.noConfusion (Prod.mk.inj (Option.some.inj h)).2
    | cancel =>
      constructor
      · intro tr e h
        rw [streamRun] at h
        have hp := Prod.mk.inj (Option.some.inj h)
        exact ⟨[], by rw [← hp.1]; rfl, by simp⟩
      · intro tr st' h
        rw [streamRun] at h
        exact RunEnd.noConfusion (Prod.mk.inj (Option.some.inj h)).2
    | val v b =>
      constructor
      · intro tr e h
        rw [streamRun] at h
        rcases hstep : streamStep st v with _ | s
        · rw [hstep] at h; exact Option.noConfusion h
        rcases s with st2 | ⟨st2, r⟩ | er
        · simp only [hstep] at h
          exact (ih st2).1 tr e h
        · simp only [hstep] at h
          rcases b with _ | _
          · simp only [Bool.false_eq_true, if_false] at h
            rcases hrest : streamRun st2 rest with _ | ⟨tr2, e2⟩
            · rw [hrest] at h; exact Option.noConfusion h
            · simp only [hrest] at h
              have hp := Prod.mk.inj (Option.some.inj h)
              rw [hp.2] at hrest
              obtain ⟨pre, hpre, hnotin⟩ := (ih st2).1 tr2 e hrest
              refine ⟨OutEv.out r :: pre, ?_, ?_⟩
              · rw [← hp.1, hpre]
                rfl
              · simp [hnotin]
          · simp only [if_true] at h
            have hp := Prod.mk.inj (Option.some.inj h)
            exact ⟨[], by rw [← hp.1]; rfl, by simp⟩
        · simp only [hstep] at h
          have hp := Prod.mk.inj (Option.some.inj h)
          exact ⟨[], by rw [← hp.1]; rfl, by simp⟩
      · intro tr st' h
        rw [streamRun] at h
        rcases hstep : streamStep st v with _ | s
        · rw [hstep] at h; exact Option.noConfusion h
        rcases s with st2 | ⟨st2, r⟩ | er
        · simp only [hstep] at h
          exact (ih st2).2 tr st' h
        · simp only [hstep] at h
          rcases b with _ | _
          · simp only [Bool.false_eq_true, if_false] at h
            rcases hrest : streamRun st2 rest with _ | ⟨tr2, e2⟩
            · rw [hrest] at h; exact Option.noConfusion h
            · simp only [hrest] at h
              have hp := Prod.mk.inj (Option.some.inj h)
              rw [hp.2] at hrest
              have hnotin := (ih st2).2 tr2 st' hrest
              rw [← hp.1]
              simp [hnotin]
          · simp only [if_true] at h
            exact RunEnd.noConfusion (Prod.mk.inj (Option.some.inj h)).2
        · simp only [hstep] at h
          exact RunEnd.noConfusion (Prod.mk.inj (Option.some.inj h)).2

/-- C10 witness: a run that emits once and then sees the input channel
close produces the emission followed by exactly one close. -/
theorem c10_witness :
    ∃ pre, ([OutEv.out (MValue.intV 7), OutEv.closed] : List OutEv) =
        pre ++ [OutEv.closed] ∧ OutEv.closed ∉ pre :=
  (c10 initState [Msg.val inp0 false, Msg.closeInput]).1
    [OutEv.out (MValue.intV 7), OutEv.closed] none rfl

/-! ### Generator lemmas -/

/-- `genStep` on a struct observation is `validateArg0`. -/
theorem genStep_arg0 (field : String) (st : GenState) (t : MType) :
    genStep field st (GObs.arg0 t) = validateArg0 field st t := rfl

/-- `genStep` on an optional/return observation is `validateArg2OrOut`. -/
theorem genStep_arg2out (field : String) (st : GenState) (t : MType) :
    genStep field st (GObs.arg2out t) = validateArg2OrOut st t := rfl

/-- Inversion of a successful member-type learning step: with a known
selector the candidate slot is overwritten by the member lookup, with an
unknown selector it is untouched. -/
theorem validateArg0T2_ok_inv {field : String} {st : GenState} {t : Option MType}
    {st' : GenState} (h : validateArg0T2 field st t = Except.ok st') :
    (field = "" → st' = st) ∧ (field ≠ "" → st' = ⟨st.t1, t⟩) := by
  obtain ⟨t1v, t2v⟩ := st
  unfold validateArg0T2 at h
  split_ifs at h with hf
  · refine ⟨fun hc => absurd hc hf, fun _ => ?_⟩
    rcases t with _ | tv
    · exact (Except.ok.inj h).symm
    · rcases t2v with _ | τ
      · exact (Except.ok.inj h).symm
      · dsimp only at h
        revert h
        rcases tv.Cmp τ with e | u
        · intro h; exact Except.noConfusion h
        · intro h; exact (Except.ok.inj h).symm
  · push_neg at hf
    exact ⟨fun _ => (Except.ok.inj h).symm, fun hc => absurd hf hc⟩

/-- Inversion of a successful `validateArg0` call: the observed type is
struct-kind, it `Cmp`-equals any previously learned struct candidate, and
the new state records it as `t1` with `t2` overwritten by the member
lookup whenever the selector is known. -/
theorem validateArg0_ok_inv {field : String} {st : GenState} {typ : MType}
    {st' : GenState} (h : validateArg0 field st typ = Except.ok st') :
    typ.kind = Kind.struct ∧
    (∀ τ1, st.t1 = some τ1 → typ = τ1) ∧
    (field = "" → st' = ⟨some typ, st.t2⟩) ∧
    (field ≠ "" → st' = ⟨some typ, VLookup field typ.structFields⟩) := by
  unfold validateArg0 at h
  split_ifs at h with hk
  push_neg at hk
  split at h
  · exact Except.noConfusion h
  rename_i st1 hT2
  obtain ⟨hT2e, hT2n⟩ := validateArg0T2_ok_inv hT2
  have ht1eq : st1.t1 = st.t1 := by
    by_cases hf : field = ""
    · rw [hT2e hf]
    · rw [hT2n hf]
  have ht2e : field = "" → st1.t2 = st.t2 := by
    intro hf; rw [hT2e hf]
  have ht2n : field ≠ "" → st1.t2 = VLookup field typ.structFields := by
    intro hf; rw [hT2n hf]
  split at h
  · rename_i τ1 ht1
    split at h
    · exact Except.noConfusion h
    · rename_i u hcmp
      have heq : ∀ τ1', st.t1 = some τ1' → typ = τ1' := by
        intro τ1' hτ'
        rw [← ht1eq, ht1] at hτ'
        have hττ : τ1 = τ1' := Option.some.inj hτ'
        subst hττ
        by_contra hc
        simp [MType.Cmp, hc] at hcmp
      have hs := (Except.ok.inj h).symm
      refine ⟨hk, heq, ?_, ?_⟩
      · intro hf
        rw [hs]
        have h2 := ht2e hf
        cases st1
        simp_all
      · intro hf
        rw [hs]
        have h2 := ht2n hf
        cases st1
        simp_all
  · rename_i ht1
    have heq : ∀ τ1', st.t1 = some τ1' → typ = τ1' := by
      intro τ1' hτ'
      rw [← ht1eq, ht1] at hτ'
      exact Option.noConfusion hτ'
    have hs := (Except.ok.inj h).symm
    refine ⟨hk, heq, ?_, ?_⟩
    · intro hf
      rw [hs]
      have h2 := ht2e hf
      cases st1
      simp_all
    · intro hf
      rw [hs]
      have h2 := ht2n hf
      cases st1
      simp_all

/-- Inversion of a successful `validateArg2OrOut` call: the observation
`Cmp`-equals any previously learned candidate and is learned. -/
theorem validateArg2OrOut_ok_inv {st : GenState} {typ : MType} {st' : GenState}
    (h : validateArg2OrOut st typ = Except.ok st') :
    (∀ τ, st.t2 = some τ → typ = τ) ∧ st' = ⟨st.t1, some typ⟩ := by
  unfold validateArg2OrOut at h
  split at h
  · rename_i τ hτ
    split at h
    · exact Except.noConfusion h
    · rename_i u hcmp
      have heq : typ = τ := by
        by_contra hc
        simp [MType.Cmp, hc] at hcmp
      constructor
      · intro τ' hτ'
        rw [hτ] at hτ'
        rw [heq, Option.some.inj hτ']
      · rw [(Except.ok.inj h).symm]
  · rename_i hτ
    constructor
    · intro τ' hτ'
      rw [hτ] at hτ'
      exact Option.noConfusion hτ'
    · rw [(Except.ok.inj h).symm]

/-- Runs split at list concatenation. -/
theorem genObsRun_append (field : String) (st : GenState) (l1 l2 : List GObs) :
    genObsRun field st (l1 ++ l2) =
      match genObsRun field st l1 with
      | .error e => Except.error e
      | .ok mid => genObsRun field mid l2 := by
  induction l1 generalizing st with
  | nil => rfl
  | cons o rest ih =>
    rw [List.cons_append, genObsRun]
    conv_rhs => rw [genObsRun]
    rcases hs : genStep field st o with e | st1
    · rfl
    · exact ih st1

/-- Processing further struct observations after a first one: only
`Cmp`-equal structs are accepted and the state no longer changes. -/
theorem runA_steady (field : String) (a : MType) (t2v : Option MType)
    (ht2 : field ≠ "" → t2v = VLookup field a.structFields) :
    ∀ (as : List MType) (st' : GenState),
      genObsRun field ⟨some a, t2v⟩ (as.map GObs.arg0) = Except.ok st' →
      st' = ⟨some a, t2v⟩ ∧ ∀ x ∈ as, x = a := by
  intro as
  induction as with
  | nil =>
    intro st' h
    rw [List.map_nil, genObsRun] at h
    exact ⟨(Except.ok.inj h).symm, by simp⟩
  | cons x rest ih =>
    intro st' h
    rw [List.map_cons, genObsRun] at h
    rcases hs : genStep field ⟨some a, t2v⟩ (GObs.arg0 x) with e | st1
    · rw [hs] at h; exact Except.noConfusion h
    rw [hs] at h
    rw [genStep_arg0] at hs
    obtain ⟨hk, hprev, hfe, hfn⟩ := validateArg0_ok_inv hs
    have hxa : x = a := hprev a rfl
    subst hxa
    have hst1 : st1 = ⟨some x, t2v⟩ := by
      by_cases hf : field = ""
      · exact hfe hf
      · rw [hfn hf, ht2 hf]
    rw [hst1] at h
    obtain ⟨hst', hall⟩ := ih st' h
    refine ⟨hst', ?_⟩
    intro y hy
    rcases List.mem_cons.mp hy with rfl | hy
    · rfl
    · exact hall y hy

/-- The struct-observation phase from the initial state: all observed
structs agree, `t1` records them, and `t2` records exactly the member
type when the selector is known and the member present. -/
theorem runA_inv (field : String) (as : List MType) (mid : GenState)
    (h : genObsRun field initGenState (as.map GObs.arg0) = Except.ok mid) :
    (∀ x ∈ as, ∀ y ∈ as, x = y) ∧ (∀ x ∈ as, mid.t1 = some x) ∧
    (as = [] → mid = initGenState) ∧
    (∀ y ∈ as.filterMap (fun S =>
        if field = "" then none else VLookup field S.structFields),
      mid.t2 = some y) ∧
    (as.filterMap (fun S =>
        if field = "" then none else VLookup field S.structFields) = [] →
      mid.t2 = none) := by
  rcases as with _ | ⟨a, rest⟩
  · rw [List.map_nil, genObsRun] at h
    have hm : mid = initGenState := (Except.ok.inj h).symm
    subst hm
    exact ⟨by simp, by simp, fun _ => rfl, by simp, fun _ => rfl⟩
  · rw [List.map_cons, genObsRun] at h
    rcases hs : genStep field initGenState (GObs.arg0 a) with e | st1
    · rw [hs] at h; exact Except.noConfusion h
    rw [hs] at h
    rw [genStep_arg0] at hs
    obtain ⟨hk, _, hfe, hfn⟩ := validateArg0_ok_inv hs
    have hst1 : st1 = ⟨some a,
        if field = "" then none else VLookup field a.structFields⟩ := by
      by_cases hf : field = ""
      · rw [hfe hf, if_pos hf]; rfl
      · rw [hfn hf, if_neg hf]
    rw [hst1] at h
    obtain ⟨hmid, hall⟩ :=
      runA_steady field a _ (fun hf => by rw [if_neg hf]) rest mid h
    have hallcons : ∀ x ∈ a :: rest, x = a := by
      intro x hx
      rcases List.mem_cons.mp hx with rfl | hx
      · rfl
      · exact hall x hx
    refine ⟨?_, ?_, ?_, ?_, ?_⟩
    · intro x hx y hy; rw [hallcons x hx, hallcons y hy]
    · intro x hx; rw [hmid, hallcons x hx]
    · intro hc; exact List.noConfusion hc
    · intro y hy
      rw [List.mem_filterMap] at hy
      obtain ⟨x, hx, hgx⟩ := hy
      rw [hallcons x hx] at hgx
      rw [hmid]
      by_cases hf : field = ""
      · rw [if_pos hf] at hgx; exact Option.noConfusion hgx
      · rw [if_neg hf] at hgx
        show (if field = "" then none else VLookup field a.structFields) = some y
        rw [if_neg hf, hgx]
    · intro hemp
      rw [hmid]
      show (if field = "" then none else VLookup field a.structFields) = none
      by_cases hf : field = ""
      · rw [if_pos hf]
      · rw [if_neg hf]
        rcases hlv : VLookup field a.structFields with _ | tv
        · rfl
        · exfalso
          have hmem : tv ∈ (a :: rest).filterMap (fun S =>
              if field = "" then none else VLookup field S.structFields) := by
            rw [List.mem_filterMap]
            exact ⟨a, by simp, by rw [if_neg hf, hlv]⟩
          rw [hemp] at hmem
          exact List.not_mem_nil _ hmem

/-- The optional/return-observation phase: every observation must
`Cmp`-equal the learned candidate, which is never reset. -/
theorem runB_inv (field : String) (bs : List MType) (st st' : GenState)
    (h : genObsRun field st (bs.map GObs.arg2out) = Except.ok st') :
    st'.t1 = st.t1 ∧
    (bs = [] → st' = st) ∧
    (∀ τ, st.t2 = some τ → st'.t2 = some τ ∧ ∀ x ∈ bs, x = τ) ∧
    (st.t2 = none → ∀ b bs', bs = b :: bs' → st'.t2 = some b ∧ ∀ x ∈ bs, x = b) := by
  induction bs generalizing st with
  | nil =>
    rw [List.map_nil, genObsRun] at h
    have hm : st' = st := (Except.ok.inj h).symm
    subst hm
    exact ⟨rfl, fun _ => rfl, fun τ hτ => ⟨hτ, by simp⟩,
      fun _ b bs' hc => List.noConfusion hc⟩
  | cons x rest ih =>
    rw [List.map_cons, genObsRun] at h
    rcases hs : genStep field st (GObs.arg2out x) with e | st1
    · rw [hs] at h; exact Except.noConfusion h
    rw [hs] at h
    rw [genStep_arg2out] at hs
    obtain ⟨hcmp, hst1⟩ := validateArg2OrOut_ok_inv hs
    subst hst1
    obtain ⟨ht1, _, hsome, _⟩ := ih _ h
    refine ⟨ht1, ?_, ?_, ?_⟩
    · intro hc; exact List.noConfusion hc
    · intro τ hτ
      have hxτ : x = τ := hcmp τ hτ
      subst hxτ
      obtain ⟨ht2, hallrest⟩ := hsome x rfl
      refine ⟨ht2, ?_⟩
      intro y hy
      rcases List.mem_cons.mp hy with rfl | hy
      · rfl
      · exact hallrest y hy
    · intro _ b bs' hbs
      have hbx : x = b := (List.cons.inj hbs).1
      subst hbx
      obtain ⟨ht2, hallrest⟩ := hsome x rfl
      refine ⟨ht2, ?_⟩
      intro y hy
      rcases List.mem_cons.mp hy with rfl | hy
      · rfl
      · exact hallrest y hy

/-- C1: over any successful generator observation run (struct-argument
observations followed by optional/return observations, the order the
source performs them in), all candidate types observed for the
optional/return unknown agree, the learned candidate equals every one of
them (never silently replaced or reset), no candidate is learned when
none was observed, and all struct candidates agree and are recorded; a
mismatching observation therefore can never survive to a successful run.
The last conjunct ties the generator's actual channel sequence to this
phase shape. -/
theorem c1 (field : String) (as bs : List MType) (st : GenState)
    (h : genObsRun field initGenState
      (as.map GObs.arg0 ++ bs.map GObs.arg2out) = Except.ok st) :
    (∀ x ∈ t2Candidates field as bs, ∀ y ∈ t2Candidates field as bs, x = y) ∧
    (∀ x ∈ t2Candidates field as bs, st.t2 = some x) ∧
    (t2Candidates field as bs = [] → st.t2 = none) ∧
    (∀ x ∈ as, ∀ y ∈ as, x = y) ∧ (∀ x ∈ as, st.t1 = some x) ∧
    (∀ o1 o2 o3 o4 o5 o6 : Option MType,
      channelObs o1 o2 o3 o4 o5 o6 =
        ((o1.toList ++ o2.toList).map GObs.arg0) ++
        ((o3.toList ++ o4.toList ++ o5.toList ++ o6.toList).map GObs.arg2out)) := by
  rw [genObsRun_append] at h
  rcases hA : genObsRun field initGenState (as.map GObs.arg0) with e | mid
  · rw [hA] at h; exact Except.noConfusion h
  rw [hA] at h
  obtain ⟨hpairA, ht1A, _, hcandA, hcandAnil⟩ := runA_inv field as mid hA
  obtain ⟨ht1B, hnilB, hsomeB, hnoneB⟩ := runB_inv field bs mid st h
  have hmain : ∀ x ∈ t2Candidates field as bs, st.t2 = some x := by
    intro x hx
    rw [t2Candidates, List.mem_append] at hx
    rcases hx with hx | hx
    · exact (hsomeB x (hcandA x hx)).1
    · rcases hmid : mid.t2 with _ | τ
      · rcases hbs : bs with _ | ⟨b, bs'⟩
        · rw [hbs] at hx; exact absurd hx (List.not_mem_nil x)
        · obtain ⟨ht2, hall⟩ := hnoneB hmid b bs' hbs
          rw [hall x hx]
          exact ht2
      · obtain ⟨ht2, hall⟩ := hsomeB τ hmid
        rw [hall x hx]
        exact ht2
  refine ⟨?_, hmain, ?_, hpairA, ?_, ?_⟩
  · intro x hx y hy
    have h1 := hmain x hx
    have h2 := hmain y hy
    rw [h1] at h2
    exact Option.some.inj h2
  · intro hemp
    rw [t2Candidates] at hemp
    have hparts := List.append_eq_nil.mp hemp
    have hmid : mid.t2 = none := hcandAnil hparts.1
    have hst : st = mid := hnilB hparts.2
    rw [hst, hmid]
  · intro x hx
    rw [ht1B]
    exact ht1A x hx
  · intro o1 o2 o3 o4 o5 o6
    simp [channelObs, List.map_append]

/-- C1 witness: a run observing the struct twice and the return type
twice learns the member type as the optional/return candidate. -/
theorem c1_witness :
    (⟨some sampleS0, some MType.int⟩ : GenState).t2 = some MType.int :=
  (c1 "a" [sampleS0, sampleS0] [MType.int, MType.int]
    ⟨some sampleS0, some MType.int⟩ rfl).2.1 MType.int (by
      rw [t2Candidates]
      simp [VLookup, sampleS0])

/-- C8: when the call-site fact was found with the correct arity, the
selector is a known non-empty name, and the learned container struct type
lacks that member, the generator invocation succeeds — the absent member
is not an error — the structural-decomposition invariant is not emitted,
and the learned optional/return type is asserted only through the
`Equals(dummyOptional, τ)` / `Equals(dummyOut, τ)` constraints. -/
theorem c8 (s : String) (S τ : MType) (o2 o3 o4 o5 o6 : Option MType)
    (hs : s ≠ "") (hS : S.kind = Kind.struct)
    (habs : VLookup s S.structFields = none)
    (h2 : o2 = none ∨ o2 = some S)
    (h3 : o3 = none ∨ o3 = some τ) (h4 : o4 = none ∨ o4 = some τ)
    (h5 : o5 = none ∨ o5 = some τ) (h6 : o6 = none ∨ o6 = some τ) :
    ∃ invs, genBody ⟨3, some (MValue.strV s), some S, o2, o3, o4, o5, o6⟩ =
        Except.ok invs ∧
      (∀ i ∈ invs, i.isWrapStruct = false) ∧
      ((o3 = some τ ∨ o4 = some τ ∨ o5 = some τ ∨ o6 = some τ) →
        Invariant.equals GExpr.dummyOptional τ ∈ invs ∧
        Invariant.equals GExpr.dummyOut τ ∈ invs) := by
  have hrun : (genObsRun s initGenState (channelObs (some S) o2 o3 o4 o5 o6) =
        Except.ok ⟨some S, none⟩ ∧
        ¬(o3 = some τ ∨ o4 = some τ ∨ o5 = some τ ∨ o6 = some τ)) ∨
      genObsRun s initGenState (channelObs (some S) o2 o3 o4 o5 o6) =
        Except.ok ⟨some S, some τ⟩ := by
    rcases h2 with rfl | rfl <;> rcases h3 with rfl | rfl <;>
      rcases h4 with rfl | rfl <;> rcases h5 with rfl | rfl <;>
      rcases h6 with rfl | rfl <;>
      first
        | (left
           refine ⟨?_, by simp⟩
           simp [channelObs, genObsRun, genStep, validateArg0, validateArg0T2,
             initGenState, MType.Cmp, hs, hS, habs]
           done)
        | (right
           simp [channelObs, genObsRun, genStep, validateArg0, validateArg0T2,
             validateArg2OrOut, initGenState, MType.Cmp, hs, hS, habs]
           done)
  rcases hrun with ⟨hrun, hnone⟩ | hrun
  · refine ⟨[Invariant.equality GExpr.callExpr GExpr.dummyOut,
      Invariant.equality (GExpr.callArg 0) GExpr.dummyStruct,
      Invariant.equality (GExpr.callArg 1) GExpr.dummyField,
      Invariant.equality (GExpr.callArg 2) GExpr.dummyOptional,
      Invariant.equals (GExpr.callArg 1) MType.str,
      Invariant.equals GExpr.dummyStruct S,
      Invariant.equalityWrapCall GExpr.callExpr GExpr.funcExpr], ?_, ?_, ?_⟩
    · simp [genBody, hrun, hs, habs, baseInvariants]
    · simp [Invariant.isWrapStruct]
    · intro hany
      exact absurd hany hnone
  · refine ⟨[Invariant.equality GExpr.callExpr GExpr.dummyOut,
      Invariant.equality (GExpr.callArg 0) GExpr.dummyStruct,
      Invariant.equality (GExpr.callArg 1) GExpr.dummyField,
      Invariant.equality (GExpr.callArg 2) GExpr.dummyOptional,
      Invariant.equals (GExpr.callArg 1) MType.str,
      Invariant.equals GExpr.dummyStruct S,
      Invariant.equals GExpr.dummyOptional τ,
      Invariant.equals GExpr.dummyOut τ,
      Invariant.equalityWrapCall GExpr.callExpr GExpr.funcExpr], ?_, ?_, ?_⟩
    · simp [genBody, hrun, hs, habs, baseInvariants]
    · simp [Invariant.isWrapStruct]
    · intro _
      constructor <;> simp

/-- C8 witness: a concrete struct lacking the selector, with the return
type learned from the third argument channel. -/
theorem c8_witness :
    ∃ invs, genBody ⟨3, some (MValue.strV "x"),
        some (MType.structT [("a", MType.int)]), none,
        some MType.int, none, none, none⟩ = Except.ok invs ∧
      (∀ i ∈ invs, i.isWrapStruct = false) ∧
      ((some MType.int = some MType.int ∨ (none : Option MType) = some MType.int ∨
          (none : Option MType) = some MType.int ∨
          (none : Option MType) = some MType.int) →
        Invariant.equals GExpr.dummyOptional MType.int ∈ invs ∧
        Invariant.equals GExpr.dummyOut MType.int ∈ invs) :=
  c8 "x" (MType.structT [("a", MType.int)]) MType.int none (some MType.int)
    none none none (by decide) rfl rfl (Or.inl rfl) (Or.inr rfl)
    (Or.inl rfl) (Or.inl rfl) (Or.inl rfl)

end Mgmt